import Mathlib

/-! # Sandstorm header authentication (`auth/sandstorm.go`)

A shallow embedding of the sandstorm authenticator of filebrowser-sandstorm:
the trusted-field accessors (`GetString`, `GetBoolean`, `GetArray`,
`IsValid`), the merge `GetUser`, and the lookup-or-provision flow
`SaveUser` / `Auth` over an abstract user store.

Go strings are modelled by Lean strings (sequences of Unicode scalar values),
Go maps by partial functions, and the store by explicit state passing together
with the list of store calls that were made.
-/

namespace auth

/-! ## Collaborator types (declared outside `auth/sandstorm.go`) -/

/-- Modelled from the spec: the `error` values the store can hand back. The
package `errors` is not part of the sources; the spec distinguishes the
"not found" error (`errors.ErrNotExist`, compared by identity in the code)
from every other error. -/
inductive Error where
  | ErrNotExist
  | other (msg : String)
  deriving DecidableEq, Repr

/-- Modelled from the spec: `users.Permissions`, the eight permission
booleans admin/execute/create/rename/modify/delete/share/download. -/
structure Permissions where
  Admin : Bool := false
  Execute : Bool := false
  Create : Bool := false
  Rename : Bool := false
  Modify : Bool := false
  Delete : Bool := false
  Share : Bool := false
  Download : Bool := false
  deriving DecidableEq, Repr

/-- Modelled from the spec: `files.Sorting`, the sort preference (`By`, `Asc`). -/
structure Sorting where
  By : String := ""
  Asc : Bool := false
  deriving DecidableEq, Repr

/-- Modelled from the spec: `users.User`, restricted to the fields that
`auth/sandstorm.go` reads or writes. Field defaults are Go zero values, so a
composite literal that omits a field gets the same value as in Go. `ViewMode`
is a string type in Go and is kept as a string. -/
structure User where
  ID : Nat := 0
  Username : String := ""
  Password : String := ""
  Scope : String := ""
  Locale : String := ""
  LockPassword : Bool := false
  ViewMode : String := ""
  SingleClick : Bool := false
  Perm : Permissions := {}
  Commands : List String := []
  Sorting : Sorting := {}
  HideDotfiles : Bool := false
  deriving DecidableEq, Repr

/-- Modelled from the spec: `settings.UserDefaults`, the process-wide defaults
read through `a.Settings.Defaults`. -/
structure UserDefaults where
  Scope : String := ""
  Locale : String := ""
  ViewMode : String := ""
  SingleClick : Bool := false
  Sorting : Sorting := {}
  Perm : Permissions := {}
  Commands : List String := []
  HideDotfiles : Bool := false
  deriving DecidableEq, Repr

/-- Modelled from the spec: `settings.Settings`, of which only `Defaults` is read. -/
structure Settings where
  Defaults : UserDefaults := {}
  deriving DecidableEq, Repr

/-- Modelled from the spec: `settings.Server`, of which only `Root` (the store
partition key) is read. -/
structure Server where
  Root : String := ""
  deriving DecidableEq, Repr

/-- Modelled from the spec: the `users.Store` interface, as far as the
authenticator uses it, over a store state `σ`.
`Get(root, username)` is a lookup: it returns the Go pair `(user, err)`, either
component possibly nil, and does not change the state. `Save(user)` returns the
new state and the error (nil on success). -/
structure Store (σ : Type) where
  Get : σ → String → String → Option User × Option Error
  Save : σ → User → σ × Option Error

/-- One call made on the store, recorded in call order. -/
inductive StoreCall where
  | get (root : String) (id : String)
  | save (u : User)
  deriving DecidableEq, Repr

/-- Go standard library `http.Header`: a map from canonical header names to
their list of values. -/
structure Header where
  entries : String → Option (List String)

/-- Go standard library `http.Header.Get`: the first value stored under the
key, or the empty string when there is none. (The key used by the
authenticator, `X-Sandstorm-User-Id`, is already in canonical form.) -/
def Header.Get (h : Header) (key : String) : String :=
  match h.entries key with
  | some (v :: _) => v
  | _ => ""

/-- Go standard library `http.Request`, of which only the header is read. -/
structure Request where
  Header : Header

/-- One line written by `log.Println`. -/
inductive LogLine where
  | text (msg : String)
  | error (e : Error)
  deriving DecidableEq, Repr

/-! ## Go standard library string functions used by `GetArray` -/

/-- Go standard library `unicode.IsSpace`: the code points with the Unicode
White_Space property. -/
def isSpace (c : Char) : Bool :=
  let n := c.toNat
  (0x09 ≤ n && n ≤ 0x0d) || n == 0x20 || n == 0x85 || n == 0xa0 || n == 0x1680 ||
    (0x2000 ≤ n && n ≤ 0x200a) || n == 0x2028 || n == 0x2029 || n == 0x202f ||
    n == 0x205f || n == 0x3000

/-- Go standard library `strings.TrimSpace`: the string without its leading
and trailing white space. -/
def TrimSpace (s : String) : String :=
  String.mk ((s.data.dropWhile isSpace).reverse.dropWhile isSpace).reverse

/-- Splitting a character sequence at every occurrence of `sep`. -/
def splitChars (sep : Char) : List Char → List (List Char)
  | [] => [[]]
  | c :: cs =>
    if c = sep then [] :: splitChars sep cs
    else
      match splitChars sep cs with
      | [] => [[c]]
      | w :: ws => (c :: w) :: ws

/-- Go standard library `strings.Split(s, " ")`: all substrings of `s`
separated by a single space; a string without a space gives the one-element
list holding `s`. -/
def SplitSpace (s : String) : List String :=
  (splitChars ' ' s.data).map String.mk

/-! ## The trusted fields -/

/-- The type `sandstormFields`: the request-scoped map of trusted fields. A Go
`map[string]string` is modelled by its lookup function. -/
structure sandstormFields where
  Values : String → Option String

/-- The map holding exactly the given key/value pairs (the first pair for a
key wins). -/
def fieldsOf (kvs : List (String × String)) : sandstormFields :=
  ⟨fun k => kvs.lookup k⟩

/-- The variable `validSandstormFields`: names of the fields that can be used. -/
def validSandstormFields : List String :=
  [ "sandstorm.action",
    "user.scope",
    "user.locale",
    "user.viewMode",
    "user.singleClick",
    "user.sorting.by",
    "user.sorting.asc",
    "user.commands",
    "user.hideDotfiles",
    "user.perm.admin",
    "user.perm.execute",
    "user.perm.create",
    "user.perm.rename",
    "user.perm.modify",
    "user.perm.delete",
    "user.perm.share",
    "user.perm.download" ]

/-- The loop of `IsValid` over a list of field names. -/
def isValidLoop (field : String) : List String → Bool
  | [] => false
  | val :: rest => if field = val then true else isValidLoop field rest

/-- The method `IsValid`: checks if the provided field is on the valid fields
list. -/
def sandstormFields.IsValid (_hf : sandstormFields) (field : String) : Bool :=
  isValidLoop field validSandstormFields

/-- The method `GetString`: the string value or the provided default. -/
def sandstormFields.GetString (hf : sandstormFields) (k dv : String) : String :=
  match hf.Values k with
  | some val => val
  | none => dv

/-- The method `GetBoolean`: the bool value or the provided default. -/
def sandstormFields.GetBoolean (hf : sandstormFields) (k : String) (dv : Bool) : Bool :=
  match hf.Values k with
  | some val => decide (val = "true")
  | none => dv

/-- The method `GetArray`: the array value or the provided default. -/
def sandstormFields.GetArray (hf : sandstormFields) (k : String) (dv : List String) :
    List String :=
  match hf.Values k with
  | some val => if TrimSpace val ≠ "" then SplitSpace val else dv
  | none => dv

/-! ## The authenticator -/

/-- The constant `MethodSandstormAuth` identifying sandstorm auth. -/
def MethodSandstormAuth : String := "sandstorm"

/-- The type `sandstormCred`. -/
structure sandstormCred where
  Username : String := ""
  deriving DecidableEq, Repr

/-- The type `SandstormAuth`, a sandstorm implementation of an Auther. The
pointers `Settings` and `Server` are taken to be non-nil; the state behind the
`Users` interface value is passed separately. -/
structure SandstormAuth (σ : Type) where
  Users : Store σ
  Settings : Settings
  Server : Server
  Cred : sandstormCred
  Fields : sandstormFields

/-- The method `GetUser`: a User filled with sandstorm values or provided
defaults. -/
def SandstormAuth.GetUser {σ : Type} (a : SandstormAuth σ) (d : User) : User :=
  -- adds all permissions when user is admin
  let isAdmin := a.Fields.GetBoolean "user.perm.admin" d.Perm.Admin
  let perms : Permissions :=
    { Admin := isAdmin
      Execute := isAdmin || a.Fields.GetBoolean "user.perm.execute" d.Perm.Execute
      Create := isAdmin || a.Fields.GetBoolean "user.perm.create" d.Perm.Create
      Rename := isAdmin || a.Fields.GetBoolean "user.perm.rename" d.Perm.Rename
      Modify := isAdmin || a.Fields.GetBoolean "user.perm.modify" d.Perm.Modify
      Delete := isAdmin || a.Fields.GetBoolean "user.perm.delete" d.Perm.Delete
      Share := isAdmin || a.Fields.GetBoolean "user.perm.share" d.Perm.Share
      Download := isAdmin || a.Fields.GetBoolean "user.perm.download" d.Perm.Download }
  { ID := d.ID
    Username := d.Username
    Password := d.Password
    Scope := a.Fields.GetString "user.scope" d.Scope
    Locale := a.Fields.GetString "user.locale" d.Locale
    ViewMode := a.Fields.GetString "user.viewMode" d.ViewMode
    SingleClick := a.Fields.GetBoolean "user.singleClick" d.SingleClick
    Sorting :=
      { Asc := a.Fields.GetBoolean "user.sorting.asc" d.Sorting.Asc
        By := a.Fields.GetString "user.sorting.by" d.Sorting.By }
    Commands := a.Fields.GetArray "user.commands" d.Commands
    HideDotfiles := a.Fields.GetBoolean "user.hideDotfiles" d.HideDotfiles
    Perm := perms
    LockPassword := true }

/-- What one run of `SaveUser` leaves behind: the returned pair `(user, err)`,
the store state after the run, and the store calls made, in order. -/
structure Outcome (σ : Type) where
  user : Option User
  err : Option Error
  store : σ
  calls : List StoreCall

/-- The baseline record `d` that `SaveUser` builds for an unknown identity. -/
def SandstormAuth.baseline {σ : Type} (a : SandstormAuth σ) : User :=
  { Username := a.Cred.Username
    Password := "empty"
    Scope := a.Settings.Defaults.Scope
    Locale := a.Settings.Defaults.Locale
    ViewMode := a.Settings.Defaults.ViewMode
    SingleClick := a.Settings.Defaults.SingleClick
    Sorting := a.Settings.Defaults.Sorting
    Perm := a.Settings.Defaults.Perm
    Commands := a.Settings.Defaults.Commands
    HideDotfiles := a.Settings.Defaults.HideDotfiles }

/-- The method `SaveUser`, run on store state `s`. -/
def SandstormAuth.SaveUser {σ : Type} (a : SandstormAuth σ) (s : σ) : Outcome σ :=
  let got := a.Users.Get s a.Server.Root a.Cred.Username
  let calls := [StoreCall.get a.Server.Root a.Cred.Username]
  if got.2 ≠ none ∧ got.2 ≠ some Error.ErrNotExist then
    { user := none, err := got.2, store := s, calls := calls }
  else
    match got.1 with
    | none =>
      -- create user with the provided credentials
      let u := a.GetUser a.baseline
      let saved := a.Users.Save s u
      let calls := calls ++ [StoreCall.save u]
      if saved.2 ≠ none then
        { user := none, err := saved.2, store := saved.1, calls := calls }
      else
        { user := some u, err := none, store := saved.1, calls := calls }
    | some u => { user := some u, err := none, store := s, calls := calls }

/-- What one run of `Auth` leaves behind: the authenticator with its fields as
assigned by `Auth`, the returned pair `(user, err)`, the store state, the store
calls made and the lines logged. -/
structure AuthOutcome (σ : Type) where
  self : SandstormAuth σ
  user : Option User
  err : Option Error
  store : σ
  calls : List StoreCall
  log : List LogLine

/-- The method `Auth`, run on request `r` and store state `s`. -/
def SandstormAuth.Auth {σ : Type} (a : SandstormAuth σ) (r : Request) (usr : Store σ)
    (stg : auth.Settings) (srv : auth.Server) (s : σ) : AuthOutcome σ :=
  let cred : sandstormCred := { Username := r.Header.Get "X-Sandstorm-User-Id" }
  let cred : sandstormCred :=
    if cred.Username = "" then { cred with Username := "__sandstorm_anonymous" } else cred
  let a : SandstormAuth σ :=
    { a with Users := usr, Settings := stg, Server := srv, Cred := cred }
  let o := a.SaveUser s
  match o.err with
  | some err =>
    { self := a, user := none, err := some err, store := o.store, calls := o.calls
      log := [LogLine.text "Could not save user", LogLine.error err] }
  | none =>
    { self := a, user := o.user, err := none, store := o.store, calls := o.calls
      log := [] }

/-- The method `LoginPage`: sandstorm auth does not require a login page. -/
def SandstormAuth.LoginPage {σ : Type} (_a : SandstormAuth σ) : Bool :=
  false

/-! ## Concrete stores and requests used at the concrete inputs below -/

/-- A store over a list of records: `Get` answers `g` whatever the key, `Save`
answers `sv` and appends the record when `sv` reports success. -/
def fixedStore (g : Option User × Option Error) (sv : Option Error) : Store (List User) where
  Get := fun _ _ _ => g
  Save := fun s u => (if sv = none then s ++ [u] else s, sv)

/-- An in-memory store keyed by username: `Get` finds the first record with
that username or reports `ErrNotExist`; `Save` appends and succeeds. -/
def memStore : Store (List User) where
  Get := fun s _ id =>
    match s.find? (fun u => u.Username == id) with
    | some u => (some u, none)
    | none => (none, some Error.ErrNotExist)
  Save := fun s u => (s ++ [u], none)

/-- The request whose only header is `X-Sandstorm-User-Id` with value `v`. -/
def requestFor (v : String) : Request :=
  ⟨⟨fun k => if k = "X-Sandstorm-User-Id" then some [v] else none⟩⟩

/-- A request without any header. -/
def requestNoHeader : Request :=
  ⟨⟨fun _ => none⟩⟩

/-- An authenticator whose fields are still at their zero values, carrying
the trusted fields `hf`. -/
def freshAuth (hf : sandstormFields) : SandstormAuth (List User) :=
  { Users := memStore, Settings := {}, Server := {}, Cred := {}, Fields := hf }

/-- Trusted fields that grant admin and deny every other permission by name. -/
def adminOnlyFields : sandstormFields :=
  fieldsOf [("user.perm.admin", "true"), ("user.perm.execute", "false"),
    ("user.perm.create", "false"), ("user.perm.rename", "false"),
    ("user.perm.modify", "false"), ("user.perm.delete", "false"),
    ("user.perm.share", "false"), ("user.perm.download", "false")]

/-- A stored record for "alice": scope "/", no permission at all. -/
def aliceStored : User :=
  { ID := 7, Username := "alice", Password := "empty", Scope := "/", LockPassword := true }

/-- Trusted fields that move the scope to "/data" and grant admin. -/
def promoteFields : sandstormFields :=
  fieldsOf [("user.scope", "/data"), ("user.perm.admin", "true")]

/-- Trusted fields that grant admin and say nothing else. -/
def adminFields : sandstormFields :=
  fieldsOf [("user.perm.admin", "true")]

/-- Process-wide settings whose defaults are scope "/" and no permission. -/
def rootScopeSettings : Settings :=
  { Defaults := { Scope := "/" } }

/-- The record expected for a newly provisioned "alice" who is trusted as
admin: scope "/", every permission flag true, password locked. -/
def aliceProvisioned : User :=
  { Username := "alice"
    Password := "empty"
    Scope := "/"
    LockPassword := true
    Perm :=
      { Admin := true
        Execute := true
        Create := true
        Rename := true
        Modify := true
        Delete := true
        Share := true
        Download := true } }

/-- A stored record for "bob" that is admin without any other permission. -/
def bobStored : User :=
  { ID := 3, Username := "bob", Password := "empty", LockPassword := true,
    Perm := { Admin := true } }

/-- The empty map of trusted fields. -/
def emptyFields : sandstormFields :=
  fieldsOf []

/-- A baseline record that is admin with Create only, not password-locked,
with preferences of its own. -/
def carolBaseline : User :=
  { ID := 9, Username := "carol", Password := "secret", Scope := "/home", Locale := "fr",
    ViewMode := "list", SingleClick := true, Commands := ["git", "ls"],
    Sorting := { By := "name", Asc := true }, HideDotfiles := true,
    Perm := { Admin := true, Create := true } }

/-- Trusted fields holding one key that is not on the allow-list. -/
def nicknameFields : sandstormFields :=
  fieldsOf [("user.nickname", "al")]

/-! ## Properties of `GetUser` -/

/-- C1: if the trusted field `user.perm.admin` resolves to true against the
baseline, every one of the eight permission flags of `GetUser d` is true,
whatever the other trusted `user.perm.*` values are. -/
theorem GetUser_admin_all_perms {σ : Type} (a : SandstormAuth σ) (d : User)
    (h : a.Fields.GetBoolean "user.perm.admin" d.Perm.Admin = true) :
    (a.GetUser d).Perm.Admin = true ∧ (a.GetUser d).Perm.Execute = true ∧
    (a.GetUser d).Perm.Create = true ∧ (a.GetUser d).Perm.Rename = true ∧
    (a.GetUser d).Perm.Modify = true ∧ (a.GetUser d).Perm.Delete = true ∧
    (a.GetUser d).Perm.Share = true ∧ (a.GetUser d).Perm.Download = true := by
  simp [SandstormAuth.GetUser, h]

/-- C1 at a concrete input: admin is trusted "true" while every other
permission field is trusted "false" and the baseline grants nothing. -/
theorem GetUser_admin_all_perms_witness :
    adminOnlyFields.GetBoolean
        "user.perm.admin" false = true ∧
    ((freshAuth adminOnlyFields).GetUser {}).Perm =
      { Admin := true, Execute := true, Create := true, Rename := true, Modify := true,
        Delete := true, Share := true, Download := true } := by
  have h := GetUser_admin_all_perms
    (freshAuth adminOnlyFields) {} (by decide)
  refine ⟨by decide, ?_⟩
  obtain ⟨h1, h2, h3, h4, h5, h6, h7, h8⟩ := h
  cases hp : ((freshAuth adminOnlyFields).GetUser {}).Perm
  rw [hp] at h1 h2 h3 h4 h5 h6 h7 h8
  simp only at h1 h2 h3 h4 h5 h6 h7 h8
  subst h1 h2 h3 h4 h5 h6 h7 h8
  rfl

/-- C2: the Admin flag of `GetUser d` is `isAdmin`, the trusted
`user.perm.admin` resolved against the baseline; each of the seven other flags
is `isAdmin` OR its own trusted field resolved against the baseline flag; so
with `isAdmin` false a flag whose trusted field is absent keeps the baseline
value. -/
theorem GetUser_perm_formula {σ : Type} (a : SandstormAuth σ) (d : User) :
    ((a.GetUser d).Perm.Admin = a.Fields.GetBoolean "user.perm.admin" d.Perm.Admin ∧
     (a.GetUser d).Perm.Execute = (a.Fields.GetBoolean "user.perm.admin" d.Perm.Admin ||
        a.Fields.GetBoolean "user.perm.execute" d.Perm.Execute) ∧
     (a.GetUser d).Perm.Create = (a.Fields.GetBoolean "user.perm.admin" d.Perm.Admin ||
        a.Fields.GetBoolean "user.perm.create" d.Perm.Create) ∧
     (a.GetUser d).Perm.Rename = (a.Fields.GetBoolean "user.perm.admin" d.Perm.Admin ||
        a.Fields.GetBoolean "user.perm.rename" d.Perm.Rename) ∧
     (a.GetUser d).Perm.Modify = (a.Fields.GetBoolean "user.perm.admin" d.Perm.Admin ||
        a.Fields.GetBoolean "user.perm.modify" d.Perm.Modify) ∧
     (a.GetUser d).Perm.Delete = (a.Fields.GetBoolean "user.perm.admin" d.Perm.Admin ||
        a.Fields.GetBoolean "user.perm.delete" d.Perm.Delete) ∧
     (a.GetUser d).Perm.Share = (a.Fields.GetBoolean "user.perm.admin" d.Perm.Admin ||
        a.Fields.GetBoolean "user.perm.share" d.Perm.Share) ∧
     (a.GetUser d).Perm.Download = (a.Fields.GetBoolean "user.perm.admin" d.Perm.Admin ||
        a.Fields.GetBoolean "user.perm.download" d.Perm.Download)) ∧
    (a.Fields.GetBoolean "user.perm.admin" d.Perm.Admin = false →
      (a.Fields.Values "user.perm.execute" = none →
        (a.GetUser d).Perm.Execute = d.Perm.Execute) ∧
      (a.Fields.Values "user.perm.create" = none →
        (a.GetUser d).Perm.Create = d.Perm.Create) ∧
      (a.Fields.Values "user.perm.rename" = none →
        (a.GetUser d).Perm.Rename = d.Perm.Rename) ∧
      (a.Fields.Values "user.perm.modify" = none →
        (a.GetUser d).Perm.Modify = d.Perm.Modify) ∧
      (a.Fields.Values "user.perm.delete" = none →
        (a.GetUser d).Perm.Delete = d.Perm.Delete) ∧
      (a.Fields.Values "user.perm.share" = none →
        (a.GetUser d).Perm.Share = d.Perm.Share) ∧
      (a.Fields.Values "user.perm.download" = none →
        (a.GetUser d).Perm.Download = d.Perm.Download)) := by
  refine ⟨⟨rfl, rfl, rfl, rfl, rfl, rfl, rfl, rfl⟩, fun h => ?_⟩
  refine ⟨?_, ?_, ?_, ?_, ?_, ?_, ?_⟩ <;> intro hk <;>
    simp only [SandstormAuth.GetUser, h, Bool.false_or] <;>
    simp only [sandstormFields.GetBoolean, hk]

/-- C2 at a concrete input: admin is trusted "false", `user.perm.share` is
trusted "true", no other permission field is present, and the baseline grants
Create and Download only. The merged record grants exactly Create, Share and
Download. -/
theorem GetUser_perm_formula_witness :
    (fieldsOf [("user.perm.admin", "false"), ("user.perm.share", "true")]).GetBoolean
        "user.perm.admin" true = false ∧
    ((freshAuth (fieldsOf [("user.perm.admin", "false"), ("user.perm.share", "true")])).GetUser
        { Perm := { Admin := true, Create := true, Download := true } }).Perm =
      { Admin := false, Execute := false, Create := true, Rename := false, Modify := false,
        Delete := false, Share := true, Download := true } := by
  have h := GetUser_perm_formula
    (freshAuth (fieldsOf [("user.perm.admin", "false"), ("user.perm.share", "true")]))
    { Perm := { Admin := true, Create := true, Download := true } }
  obtain ⟨⟨h1, _, _, _, _, _, h7, _⟩, h'⟩ := h
  obtain ⟨h2, h3, h4, h5, h6, _, h8⟩ := h' (by decide)
  have h2 := h2 (by decide)
  have h3 := h3 (by decide)
  have h4 := h4 (by decide)
  have h5 := h5 (by decide)
  have h6 := h6 (by decide)
  have h8 := h8 (by decide)
  refine ⟨by decide, ?_⟩
  cases hp : ((freshAuth (fieldsOf [("user.perm.admin", "false"),
      ("user.perm.share", "true")])).GetUser
        { Perm := { Admin := true, Create := true, Download := true } }).Perm
  rw [hp] at h1 h2 h3 h4 h5 h6 h7 h8
  simp only at h1 h2 h3 h4 h5 h6 h7 h8
  subst h2 h3 h4 h5 h6 h8
  rw [h1, h7]
  decide

/-! ## Properties of `SaveUser` and `Auth` -/

/-- The authenticator after `Auth`: the collaborators passed in, the identity
taken from the header (or the sentinel), the trusted fields it already had. -/
theorem Auth_self {σ : Type} (a : SandstormAuth σ) (r : Request) (usr : Store σ)
    (stg : Settings) (srv : Server) (s : σ) :
    (a.Auth r usr stg srv s).self =
      { Users := usr, Settings := stg, Server := srv,
        Cred := if r.Header.Get "X-Sandstorm-User-Id" = "" then
            { Username := "__sandstorm_anonymous" }
          else { Username := r.Header.Get "X-Sandstorm-User-Id" },
        Fields := a.Fields } := by
  unfold SandstormAuth.Auth
  simp only []
  split <;> rfl

/-- The outcome of `Auth` is the outcome of `SaveUser` run by the
authenticator as `Auth` configured it, with the user dropped on error. -/
theorem Auth_eq_SaveUser {σ : Type} (a : SandstormAuth σ) (r : Request) (usr : Store σ)
    (stg : Settings) (srv : Server) (s : σ) :
    (a.Auth r usr stg srv s).err = ((a.Auth r usr stg srv s).self.SaveUser s).err ∧
    (a.Auth r usr stg srv s).store = ((a.Auth r usr stg srv s).self.SaveUser s).store ∧
    (a.Auth r usr stg srv s).calls = ((a.Auth r usr stg srv s).self.SaveUser s).calls ∧
    (a.Auth r usr stg srv s).user =
      (if ((a.Auth r usr stg srv s).self.SaveUser s).err = none
        then ((a.Auth r usr stg srv s).self.SaveUser s).user else none) := by
  rw [Auth_self]
  unfold SandstormAuth.Auth
  simp only []
  generalize SandstormAuth.mk usr stg srv
    (if r.Header.Get "X-Sandstorm-User-Id" = "" then
        sandstormCred.mk "__sandstorm_anonymous"
      else sandstormCred.mk (r.Header.Get "X-Sandstorm-User-Id")) a.Fields = b
  cases h : (b.SaveUser s).err <;> simp

/-- The components of the authenticator after `Auth`. -/
theorem Auth_self_fields {σ : Type} (a : SandstormAuth σ) (r : Request) (usr : Store σ)
    (stg : Settings) (srv : Server) (s : σ) :
    (a.Auth r usr stg srv s).self.Users = usr ∧
    (a.Auth r usr stg srv s).self.Settings = stg ∧
    (a.Auth r usr stg srv s).self.Server = srv ∧
    (a.Auth r usr stg srv s).self.Fields = a.Fields ∧
    (a.Auth r usr stg srv s).self.Cred.Username =
      (if r.Header.Get "X-Sandstorm-User-Id" = "" then "__sandstorm_anonymous"
        else r.Header.Get "X-Sandstorm-User-Id") := by
  rw [Auth_self]
  refine ⟨rfl, rfl, rfl, rfl, ?_⟩
  simp only []
  split <;> rfl

/-- The record built by `GetUser` depends on the authenticator only through
its trusted fields. -/
theorem GetUser_congr {σ τ : Type} (a : SandstormAuth σ) (b : SandstormAuth τ) (d : User)
    (h : a.Fields = b.Fields) : a.GetUser d = b.GetUser d := by
  unfold SandstormAuth.GetUser
  rw [h]

/-- The branch of `SaveUser` taken when the lookup fails with an error other
than `ErrNotExist`. -/
theorem SaveUser_lookup_error {σ : Type} (a : SandstormAuth σ) (s : σ) (e : Error)
    (he : (a.Users.Get s a.Server.Root a.Cred.Username).2 = some e)
    (hne : e ≠ Error.ErrNotExist) :
    a.SaveUser s =
      { user := none, err := some e, store := s,
        calls := [StoreCall.get a.Server.Root a.Cred.Username] } := by
  unfold SandstormAuth.SaveUser
  simp [he, hne]

/-- The branch of `SaveUser` taken when the lookup hands back a record and no
fatal error. -/
theorem SaveUser_existing {σ : Type} (a : SandstormAuth σ) (s : σ) (u : User)
    (hu : (a.Users.Get s a.Server.Root a.Cred.Username).1 = some u)
    (he : (a.Users.Get s a.Server.Root a.Cred.Username).2 = none ∨
      (a.Users.Get s a.Server.Root a.Cred.Username).2 = some Error.ErrNotExist) :
    a.SaveUser s =
      { user := some u, err := none, store := s,
        calls := [StoreCall.get a.Server.Root a.Cred.Username] } := by
  unfold SandstormAuth.SaveUser
  rcases he with he | he <;> simp [he, hu]

/-- The branch of `SaveUser` taken when the lookup hands back no record and no
fatal error: one `Save` of the merged baseline, whose error decides the result. -/
theorem SaveUser_provision {σ : Type} (a : SandstormAuth σ) (s : σ)
    (hu : (a.Users.Get s a.Server.Root a.Cred.Username).1 = none)
    (he : (a.Users.Get s a.Server.Root a.Cred.Username).2 = none ∨
      (a.Users.Get s a.Server.Root a.Cred.Username).2 = some Error.ErrNotExist) :
    a.SaveUser s =
      { user := if (a.Users.Save s (a.GetUser a.baseline)).2 = none
          then some (a.GetUser a.baseline) else none,
        err := (a.Users.Save s (a.GetUser a.baseline)).2,
        store := (a.Users.Save s (a.GetUser a.baseline)).1,
        calls := [StoreCall.get a.Server.Root a.Cred.Username,
          StoreCall.save (a.GetUser a.baseline)] } := by
  unfold SandstormAuth.SaveUser
  rcases he with he | he <;> simp only [he, hu] <;>
    cases hs : (a.Users.Save s (a.GetUser a.baseline)).2 <;> simp [hs]

/-- The first store call of `SaveUser` is the lookup of the credential's
username under the server root. -/
theorem SaveUser_calls_head {σ : Type} (a : SandstormAuth σ) (s : σ) :
    (a.SaveUser s).calls.head? = some (StoreCall.get a.Server.Root a.Cred.Username) := by
  unfold SandstormAuth.SaveUser
  simp only []
  split
  · rfl
  · split
    · split <;> rfl
    · rfl

/-- A record that `SaveUser` saves carries the credential's username. -/
theorem SaveUser_saved_username {σ : Type} (a : SandstormAuth σ) (s : σ) (u : User)
    (hu : StoreCall.save u ∈ (a.SaveUser s).calls) : u.Username = a.Cred.Username := by
  unfold SandstormAuth.SaveUser at hu
  simp only [] at hu
  split at hu
  · simp at hu
  · split at hu
    · have hu' : u = a.GetUser a.baseline := by
        split at hu <;> simpa using hu
      rw [hu']
      rfl
    · simp at hu

/-- C3 (evaluation of the code): "alice" is stored with scope "/" and no
permission, the trusted fields set `user.scope` to "/data" and
`user.perm.admin` to "true". `Auth` succeeds and returns the stored record as
it is, with scope "/" and Admin false, which is not `GetUser` of the stored
record (scope "/data", Admin true). -/
theorem Auth_existing_returns_stored_unmerged :
    ((freshAuth promoteFields).Auth (requestFor "alice") memStore {} {} [aliceStored]).err
      = none ∧
    ((freshAuth promoteFields).Auth (requestFor "alice") memStore {} {} [aliceStored]).user
      = some aliceStored ∧
    aliceStored.Scope = "/" ∧ aliceStored.Perm.Admin = false ∧
    ((freshAuth promoteFields).GetUser aliceStored).Scope = "/data" ∧
    ((freshAuth promoteFields).GetUser aliceStored).Perm.Admin = true ∧
    ((freshAuth promoteFields).Auth (requestFor "alice") memStore {} {} [aliceStored]).user
      ≠ some ((freshAuth promoteFields).GetUser aliceStored) := by
  refine ⟨by decide, by decide, by decide, by decide, by decide, by decide, by decide⟩

/-- C4: when the lookup for the resolved identity returns a record and no
error, `Auth` (and the `SaveUser` run it performs) makes the single `Get` call
and no `Save` call, and leaves the store state as it was, so the same lookup
still returns the same record. -/
theorem Auth_existing_no_write {σ : Type} (a : SandstormAuth σ) (r : Request)
    (usr : Store σ) (stg : Settings) (srv : Server) (s : σ) (u : User)
    (h : usr.Get s srv.Root (a.Auth r usr stg srv s).self.Cred.Username = (some u, none)) :
    (a.Auth r usr stg srv s).calls =
      [StoreCall.get srv.Root (a.Auth r usr stg srv s).self.Cred.Username] ∧
    (∀ v, StoreCall.save v ∉ (a.Auth r usr stg srv s).calls) ∧
    (a.Auth r usr stg srv s).store = s ∧
    (∀ v, StoreCall.save v ∉ ((a.Auth r usr stg srv s).self.SaveUser s).calls) ∧
    ((a.Auth r usr stg srv s).self.SaveUser s).store = s ∧
    usr.Get (a.Auth r usr stg srv s).store srv.Root
      (a.Auth r usr stg srv s).self.Cred.Username = (some u, none) := by
  obtain ⟨-, hstore, hcalls, -⟩ := Auth_eq_SaveUser a r usr stg srv s
  obtain ⟨hU, -, hS, -, -⟩ := Auth_self_fields a r usr stg srv s
  have hsv := SaveUser_existing (a.Auth r usr stg srv s).self s u
    (by rw [hU, hS, h]) (by rw [hU, hS, h]; exact Or.inl rfl)
  rw [hcalls, hstore, hsv]
  simp only [hS]
  refine ⟨trivial, ?_, trivial, ?_, trivial, h⟩ <;> intro v hv <;> simp at hv

/-- C4 at a concrete input: "alice" is stored, the trusted fields would
promote her; the store still holds exactly her old record after `Auth`. -/
theorem Auth_existing_no_write_witness :
    memStore.Get [aliceStored] "/srv"
      ((freshAuth promoteFields).Auth (requestFor "alice") memStore {} ⟨"/srv"⟩
        [aliceStored]).self.Cred.Username = (some aliceStored, none) ∧
    ((freshAuth promoteFields).Auth (requestFor "alice") memStore {} ⟨"/srv"⟩
        [aliceStored]).calls = [StoreCall.get "/srv" "alice"] ∧
    ((freshAuth promoteFields).Auth (requestFor "alice") memStore {} ⟨"/srv"⟩
        [aliceStored]).store = [aliceStored] := by
  have h := Auth_existing_no_write (freshAuth promoteFields) (requestFor "alice") memStore {}
    ⟨"/srv"⟩ [aliceStored] aliceStored (by decide)
  exact ⟨by decide, by decide, h.2.2.1⟩

/-- C5: when the lookup for the resolved identity `id` reports not-found and
`Save` succeeds, `Auth` calls `Save` exactly once, after the lookup, with the
record `GetUser b`, where `b` is the baseline built from the process-wide
defaults with username `id` and password "empty"; that record has
`LockPassword` true, it is the record returned to the caller, and the store is
left as `Save` left it. -/
theorem Auth_provision_saves_once {σ : Type} (a : SandstormAuth σ) (r : Request)
    (usr : Store σ) (stg : Settings) (srv : Server) (s : σ) (id : String) (b rec : User)
    (hid : id = (a.Auth r usr stg srv s).self.Cred.Username)
    (hb : b =
      { Username := id
        Password := "empty"
        Scope := stg.Defaults.Scope
        Locale := stg.Defaults.Locale
        ViewMode := stg.Defaults.ViewMode
        SingleClick := stg.Defaults.SingleClick
        Sorting := stg.Defaults.Sorting
        Perm := stg.Defaults.Perm
        Commands := stg.Defaults.Commands
        HideDotfiles := stg.Defaults.HideDotfiles })
    (hrec : rec = a.GetUser b)
    (hget : usr.Get s srv.Root id = (none, some Error.ErrNotExist))
    (hsave : (usr.Save s rec).2 = none) :
    (a.Auth r usr stg srv s).calls = [StoreCall.get srv.Root id, StoreCall.save rec] ∧
    (a.Auth r usr stg srv s).user = some rec ∧
    (a.Auth r usr stg srv s).err = none ∧
    (a.Auth r usr stg srv s).store = (usr.Save s rec).1 ∧
    rec.LockPassword = true := by
  obtain ⟨herr, hstore, hcalls, huser⟩ := Auth_eq_SaveUser a r usr stg srv s
  obtain ⟨hU, hG, hS, hF, -⟩ := Auth_self_fields a r usr stg srv s
  have hbase : (a.Auth r usr stg srv s).self.baseline = b := by
    rw [hb, hid]
    simp only [SandstormAuth.baseline, hG]
  have hrec' : (a.Auth r usr stg srv s).self.GetUser (a.Auth r usr stg srv s).self.baseline
      = rec := by
    rw [hbase, hrec]
    exact GetUser_congr _ _ _ hF
  have hsv := SaveUser_provision (a.Auth r usr stg srv s).self s
    (by rw [hU, hS, ← hid, hget]) (by rw [hU, hS, ← hid, hget]; exact Or.inr rfl)
  rw [hrec', hU, hS, ← hid, hsave] at hsv
  rw [herr, hstore, hcalls, huser, hsv]
  refine ⟨rfl, rfl, rfl, rfl, ?_⟩
  rw [hrec]
  rfl

/-- C5 at the concrete input of the specification: no record for "alice",
default scope "/" and no default permission, trusted fields
`user.perm.admin = "true"`. One record is saved and returned: username
"alice", every permission flag true, scope "/", `LockPassword` true. -/
theorem Auth_provision_saves_once_witness :
    memStore.Get [] "/srv" "alice" = (none, some Error.ErrNotExist) ∧
    (adminFields.Values "user.scope" = none) ∧
    ((freshAuth adminFields).Auth (requestFor "alice") memStore rootScopeSettings ⟨"/srv"⟩
        []).calls =
      [ StoreCall.get "/srv" "alice",
        StoreCall.save aliceProvisioned ] ∧
    ((freshAuth adminFields).Auth (requestFor "alice") memStore rootScopeSettings ⟨"/srv"⟩
        []).user =
      some aliceProvisioned ∧
    ((freshAuth adminFields).Auth (requestFor "alice") memStore rootScopeSettings ⟨"/srv"⟩
        []).err = none ∧
    ((freshAuth adminFields).Auth (requestFor "alice") memStore rootScopeSettings ⟨"/srv"⟩
        []).store =
      [ aliceProvisioned ] := by
  have h := Auth_provision_saves_once (freshAuth adminFields) (requestFor "alice") memStore
    rootScopeSettings ⟨"/srv"⟩ [] "alice"
    { Username := "alice", Password := "empty", Scope := "/" }
    aliceProvisioned
    (by decide) (by decide) (by decide) (by decide) (by decide)
  exact ⟨by decide, by decide, h.1, h.2.1, h.2.2.1, h.2.2.2.1⟩

/-- C6: when the lookup for the resolved identity returns an error other than
`ErrNotExist` (with or without a record), `Auth` returns exactly that error and
no user, makes no `Save` call, and leaves the store state as it was. -/
theorem Auth_lookup_error_aborts {σ : Type} (a : SandstormAuth σ) (r : Request)
    (usr : Store σ) (stg : Settings) (srv : Server) (s : σ) (e : Error)
    (hget : (usr.Get s srv.Root (a.Auth r usr stg srv s).self.Cred.Username).2 = some e)
    (hne : e ≠ Error.ErrNotExist) :
    (a.Auth r usr stg srv s).user = none ∧
    (a.Auth r usr stg srv s).err = some e ∧
    (a.Auth r usr stg srv s).calls =
      [StoreCall.get srv.Root (a.Auth r usr stg srv s).self.Cred.Username] ∧
    (∀ v, StoreCall.save v ∉ (a.Auth r usr stg srv s).calls) ∧
    (a.Auth r usr stg srv s).store = s := by
  obtain ⟨herr, hstore, hcalls, huser⟩ := Auth_eq_SaveUser a r usr stg srv s
  obtain ⟨hU, -, hS, -, -⟩ := Auth_self_fields a r usr stg srv s
  have hsv := SaveUser_lookup_error (a.Auth r usr stg srv s).self s e
    (by rw [hU, hS, hget]) hne
  rw [herr, hstore, hcalls, huser, hsv]
  simp only [hS]
  refine ⟨by simp, trivial, trivial, ?_, trivial⟩
  intro v hv
  simp at hv

/-- C6 at a concrete input: the lookup fails with "db closed" while handing
back a record all the same; `Auth` returns that error and no user, and the
store is untouched. -/
theorem Auth_lookup_error_aborts_witness :
    ((fixedStore (some aliceStored, some (Error.other "db closed")) none).Get [aliceStored]
        "/srv" "alice").2 = some (Error.other "db closed") ∧
    Error.other "db closed" ≠ Error.ErrNotExist ∧
    ((freshAuth adminFields).Auth (requestFor "alice")
        (fixedStore (some aliceStored, some (Error.other "db closed")) none) {} ⟨"/srv"⟩
        [aliceStored]).user = none ∧
    ((freshAuth adminFields).Auth (requestFor "alice")
        (fixedStore (some aliceStored, some (Error.other "db closed")) none) {} ⟨"/srv"⟩
        [aliceStored]).err = some (Error.other "db closed") ∧
    ((freshAuth adminFields).Auth (requestFor "alice")
        (fixedStore (some aliceStored, some (Error.other "db closed")) none) {} ⟨"/srv"⟩
        [aliceStored]).store = [aliceStored] := by
  have h := Auth_lookup_error_aborts (freshAuth adminFields) (requestFor "alice")
    (fixedStore (some aliceStored, some (Error.other "db closed")) none) {} ⟨"/srv"⟩
    [aliceStored] (Error.other "db closed") (by decide) (by decide)
  exact ⟨by decide, by decide, h.1, h.2.1, h.2.2.2.2⟩

/-- C7: when the lookup for the resolved identity reports not-found and the
`Save` of the newly provisioned record fails with error `e`, `Auth` returns
exactly `e` and no user; `Save` was attempted once and not retried. -/
theorem Auth_save_error_aborts {σ : Type} (a : SandstormAuth σ) (r : Request)
    (usr : Store σ) (stg : Settings) (srv : Server) (s : σ) (e : Error)
    (hget : usr.Get s srv.Root (a.Auth r usr stg srv s).self.Cred.Username =
      (none, some Error.ErrNotExist))
    (hsave : (usr.Save s ((a.Auth r usr stg srv s).self.GetUser
      (a.Auth r usr stg srv s).self.baseline)).2 = some e) :
    (a.Auth r usr stg srv s).user = none ∧
    (a.Auth r usr stg srv s).err = some e ∧
    (a.Auth r usr stg srv s).calls =
      [ StoreCall.get srv.Root (a.Auth r usr stg srv s).self.Cred.Username,
        StoreCall.save ((a.Auth r usr stg srv s).self.GetUser
          (a.Auth r usr stg srv s).self.baseline) ] := by
  obtain ⟨herr, -, hcalls, huser⟩ := Auth_eq_SaveUser a r usr stg srv s
  obtain ⟨hU, -, hS, -, -⟩ := Auth_self_fields a r usr stg srv s
  have hsv := SaveUser_provision (a.Auth r usr stg srv s).self s
    (by rw [hU, hS, hget]) (by rw [hU, hS, hget]; exact Or.inr rfl)
  rw [hU] at hsv
  rw [hsave] at hsv
  rw [herr, hcalls, huser, hsv]
  simp only [hS]
  exact ⟨by simp, trivial, trivial⟩

/-- C7 at a concrete input: nothing is stored for "alice" and the store
refuses to save with "disk full"; `Auth` returns that error and no user, and
the store stays empty. -/
theorem Auth_save_error_aborts_witness :
    (fixedStore (none, some Error.ErrNotExist) (some (Error.other "disk full"))).Get []
        "/srv" "alice" = (none, some Error.ErrNotExist) ∧
    ((freshAuth adminFields).Auth (requestFor "alice")
        (fixedStore (none, some Error.ErrNotExist) (some (Error.other "disk full")))
        rootScopeSettings ⟨"/srv"⟩ []).user = none ∧
    ((freshAuth adminFields).Auth (requestFor "alice")
        (fixedStore (none, some Error.ErrNotExist) (some (Error.other "disk full")))
        rootScopeSettings ⟨"/srv"⟩ []).err = some (Error.other "disk full") ∧
    ((freshAuth adminFields).Auth (requestFor "alice")
        (fixedStore (none, some Error.ErrNotExist) (some (Error.other "disk full")))
        rootScopeSettings ⟨"/srv"⟩ []).store = [] := by
  have h := Auth_save_error_aborts (freshAuth adminFields) (requestFor "alice")
    (fixedStore (none, some Error.ErrNotExist) (some (Error.other "disk full")))
    rootScopeSettings ⟨"/srv"⟩ [] (Error.other "disk full") (by decide) (by decide)
  exact ⟨by decide, h.1, h.2.1, by decide⟩

/-- C8: the identity `Auth` works with is the value of the header
`X-Sandstorm-User-Id` when that value is non-empty, and the sentinel
`__sandstorm_anonymous` when the header is missing or its value is empty. The
first store call is the lookup of that identity under the server root, and a
record that gets saved carries that identity as its username. -/
theorem Auth_identity {σ : Type} (a : SandstormAuth σ) (r : Request) (usr : Store σ)
    (stg : Settings) (srv : Server) (s : σ) :
    (∀ v vs, r.Header.entries "X-Sandstorm-User-Id" = some (v :: vs) → v ≠ "" →
      (a.Auth r usr stg srv s).self.Cred.Username = v) ∧
    (r.Header.entries "X-Sandstorm-User-Id" = none →
      (a.Auth r usr stg srv s).self.Cred.Username = "__sandstorm_anonymous") ∧
    (∀ vs, r.Header.entries "X-Sandstorm-User-Id" = some ("" :: vs) →
      (a.Auth r usr stg srv s).self.Cred.Username = "__sandstorm_anonymous") ∧
    (a.Auth r usr stg srv s).calls.head? =
      some (StoreCall.get srv.Root (a.Auth r usr stg srv s).self.Cred.Username) ∧
    (∀ id u, (a.Auth r usr stg srv s).calls.head? = some (StoreCall.get srv.Root id) →
      StoreCall.save u ∈ (a.Auth r usr stg srv s).calls → u.Username = id) := by
  obtain ⟨-, -, hcalls, -⟩ := Auth_eq_SaveUser a r usr stg srv s
  obtain ⟨-, -, hS, -, hC⟩ := Auth_self_fields a r usr stg srv s
  have hhead : (a.Auth r usr stg srv s).calls.head? =
      some (StoreCall.get srv.Root (a.Auth r usr stg srv s).self.Cred.Username) := by
    rw [hcalls, SaveUser_calls_head, hS]
  refine ⟨?_, ?_, ?_, hhead, ?_⟩
  · intro v vs hv hne
    rw [hC]
    simp [Header.Get, hv, hne]
  · intro hv
    rw [hC]
    simp [Header.Get, hv]
  · intro vs hv
    rw [hC]
    simp [Header.Get, hv]
  · intro id u hid hu
    rw [hhead] at hid
    have hid' : (a.Auth r usr stg srv s).self.Cred.Username = id := by
      simpa using hid
    rw [← hid']
    rw [hcalls] at hu
    exact SaveUser_saved_username _ s u hu

/-- C8 at concrete inputs: header value "alice" is looked up as "alice" under
root "/srv" and provisioned under that name; a request without the header and
a request whose header value is empty are both looked up as
`__sandstorm_anonymous`. -/
theorem Auth_identity_witness :
    ((freshAuth adminFields).Auth (requestFor "alice") memStore rootScopeSettings ⟨"/srv"⟩
        []).self.Cred.Username = "alice" ∧
    ((freshAuth adminFields).Auth (requestFor "alice") memStore rootScopeSettings ⟨"/srv"⟩
        []).calls = [StoreCall.get "/srv" "alice", StoreCall.save aliceProvisioned] ∧
    ((freshAuth adminFields).Auth requestNoHeader memStore rootScopeSettings ⟨"/srv"⟩
        []).self.Cred.Username = "__sandstorm_anonymous" ∧
    ((freshAuth adminFields).Auth requestNoHeader memStore rootScopeSettings ⟨"/srv"⟩
        []).calls.head? = some (StoreCall.get "/srv" "__sandstorm_anonymous") ∧
    ((freshAuth adminFields).Auth (requestFor "") memStore rootScopeSettings ⟨"/srv"⟩
        []).self.Cred.Username = "__sandstorm_anonymous" := by
  refine ⟨?_, by decide, ?_, by decide, ?_⟩
  · exact (Auth_identity (freshAuth adminFields) (requestFor "alice") memStore
      rootScopeSettings ⟨"/srv"⟩ []).1 "alice" [] (by decide) (by decide)
  · exact (Auth_identity (freshAuth adminFields) requestNoHeader memStore
      rootScopeSettings ⟨"/srv"⟩ []).2.1 (by decide)
  · exact (Auth_identity (freshAuth adminFields) (requestFor "") memStore
      rootScopeSettings ⟨"/srv"⟩ []).2.2.1 [] (by decide)

/-! ## Properties of the typed accessors -/

/-- C9: for a present key, `GetBoolean k dv` is true exactly when the mapped
value is the string "true"; every other present value, among them "false",
"TRUE", "1" and the empty string, gives false whatever `dv` is; for an absent
key `GetBoolean k dv` is `dv`. -/
theorem GetBoolean_spec (hf : sandstormFields) (k : String) (dv : Bool) :
    (∀ v, hf.Values k = some v → (hf.GetBoolean k dv = true ↔ v = "true")) ∧
    (∀ v, hf.Values k = some v → v ≠ "true" → hf.GetBoolean k dv = false) ∧
    (∀ v, hf.Values k = some v → v ∈ ["false", "TRUE", "1", ""] →
      hf.GetBoolean k dv = false) ∧
    (hf.Values k = none → hf.GetBoolean k dv = dv) := by
  refine ⟨?_, ?_, ?_, ?_⟩
  · intro v hv
    simp [sandstormFields.GetBoolean, hv]
  · intro v hv hne
    simp [sandstormFields.GetBoolean, hv, hne]
  · intro v hv hmem
    have hne : v ≠ "true" := by
      intro h
      subst h
      revert hmem
      decide
    simp [sandstormFields.GetBoolean, hv, hne]
  · intro hv
    simp [sandstormFields.GetBoolean, hv]

/-- C9 at concrete inputs: with default true, the values "false", "TRUE",
"1" and "" all read as false; with default false, "true" reads as true; an
absent key reads as the default, true or false. -/
theorem GetBoolean_spec_witness :
    (fieldsOf [("user.singleClick", "false")]).GetBoolean "user.singleClick" true = false ∧
    (fieldsOf [("user.singleClick", "TRUE")]).GetBoolean "user.singleClick" true = false ∧
    (fieldsOf [("user.singleClick", "1")]).GetBoolean "user.singleClick" true = false ∧
    (fieldsOf [("user.singleClick", "")]).GetBoolean "user.singleClick" true = false ∧
    (fieldsOf [("user.singleClick", "true")]).GetBoolean "user.singleClick" false = true ∧
    (fieldsOf [("user.singleClick", "true")]).GetBoolean "user.hideDotfiles" true = true ∧
    (fieldsOf [("user.singleClick", "true")]).GetBoolean "user.hideDotfiles" false = false := by
  refine ⟨?_, ?_, ?_, ?_, ?_, ?_, ?_⟩
  · exact (GetBoolean_spec (fieldsOf [("user.singleClick", "false")]) "user.singleClick"
      true).2.2.1 "false" (by decide) (by decide)
  · exact (GetBoolean_spec (fieldsOf [("user.singleClick", "TRUE")]) "user.singleClick"
      true).2.2.1 "TRUE" (by decide) (by decide)
  · exact (GetBoolean_spec (fieldsOf [("user.singleClick", "1")]) "user.singleClick"
      true).2.2.1 "1" (by decide) (by decide)
  · exact (GetBoolean_spec (fieldsOf [("user.singleClick", "")]) "user.singleClick"
      true).2.2.1 "" (by decide) (by decide)
  · exact ((GetBoolean_spec (fieldsOf [("user.singleClick", "true")]) "user.singleClick"
      false).1 "true" (by decide)).2 rfl
  · exact (GetBoolean_spec (fieldsOf [("user.singleClick", "true")]) "user.hideDotfiles"
      true).2.2.2 (by decide)
  · exact (GetBoolean_spec (fieldsOf [("user.singleClick", "true")]) "user.hideDotfiles"
      false).2.2.2 (by decide)

/-- C10 fails as stated: the key `user.singleClick` is present with the value
"yes", which is neither "true" nor "false", and `GetBoolean` with default true
returns false, not the default. -/
theorem GetBoolean_other_value_ignores_default :
    (fieldsOf [("user.singleClick", "yes")]).Values "user.singleClick" = some "yes" ∧
    "yes" ≠ "true" ∧ "yes" ≠ "false" ∧
    (fieldsOf [("user.singleClick", "yes")]).GetBoolean "user.singleClick" true = false ∧
    (fieldsOf [("user.singleClick", "yes")]).GetBoolean "user.singleClick" true ≠ true := by
  refine ⟨by decide, by decide, by decide, by decide, by decide⟩

/-- C10 as amended: for a present key, `GetBoolean k true` is false when the
value is exactly "false", true when the value is exactly "true", and false for
every other value; the default is not used when the key is present. -/
theorem GetBoolean_default_true_present (hf : sandstormFields) (k v : String)
    (h : hf.Values k = some v) :
    (v = "false" → hf.GetBoolean k true = false) ∧
    (v = "true" → hf.GetBoolean k true = true) ∧
    (v ≠ "true" → hf.GetBoolean k true = false) := by
  refine ⟨?_, ?_, ?_⟩
  · intro hv
    subst hv
    simp [sandstormFields.GetBoolean, h]
  · intro hv
    simp [sandstormFields.GetBoolean, h, hv]
  · intro hv
    simp [sandstormFields.GetBoolean, h, hv]

/-- C10 as amended, at a concrete input: the value "yes" reads as false
although the default is true. -/
theorem GetBoolean_default_true_present_witness :
    (fieldsOf [("user.singleClick", "yes")]).Values "user.singleClick" = some "yes" ∧
    (fieldsOf [("user.singleClick", "yes")]).GetBoolean "user.singleClick" true = false :=
  ⟨by decide,
    (GetBoolean_default_true_present (fieldsOf [("user.singleClick", "yes")])
      "user.singleClick" "yes" (by decide)).2.2 (by decide)⟩

/-- C12: `GetString k dv` is the mapped value when `k` is present, also when
that value is the empty string and also when `k` is not on the allow-list, and
is `dv` when `k` is absent. -/
theorem GetString_spec (hf : sandstormFields) (k dv : String) :
    (∀ v, hf.Values k = some v → hf.GetString k dv = v) ∧
    (hf.Values k = some "" → hf.GetString k dv = "") ∧
    (∀ v, hf.IsValid k = false → hf.Values k = some v → hf.GetString k dv = v) ∧
    (hf.Values k = none → hf.GetString k dv = dv) := by
  refine ⟨?_, ?_, ?_, ?_⟩
  · intro v hv
    simp [sandstormFields.GetString, hv]
  · intro hv
    simp [sandstormFields.GetString, hv]
  · intro v _ hv
    simp [sandstormFields.GetString, hv]
  · intro hv
    simp [sandstormFields.GetString, hv]

/-- C12 at concrete inputs: a present empty value is returned instead of the
default; the value of a key that is not on the allow-list is returned; an
absent key gives the default. -/
theorem GetString_spec_witness :
    (fieldsOf [("user.locale", "")]).GetString "user.locale" "en" = "" ∧
    (fieldsOf [("user.nickname", "al")]).IsValid "user.nickname" = false ∧
    (fieldsOf [("user.nickname", "al")]).GetString "user.nickname" "none" = "al" ∧
    (fieldsOf [("user.nickname", "al")]).GetString "user.locale" "en" = "en" := by
  refine ⟨?_, by decide, ?_, ?_⟩
  · exact (GetString_spec (fieldsOf [("user.locale", "")]) "user.locale" "en").2.1
      (by decide)
  · exact (GetString_spec (fieldsOf [("user.nickname", "al")]) "user.nickname" "none").2.2.1
      "al" (by decide) (by decide)
  · exact (GetString_spec (fieldsOf [("user.nickname", "al")]) "user.locale" "en").2.2.2
      (by decide)

/-- C13: `IsValid name` is true exactly when `name` is one of the 17
recognized keys; the allow-list has 17 entries, all distinct; and the answer is
the same for every field map. -/
theorem IsValid_spec (hf : sandstormFields) (name : String) :
    (hf.IsValid name = true ↔
      (name = "sandstorm.action" ∨ name = "user.scope" ∨ name = "user.locale" ∨
       name = "user.viewMode" ∨ name = "user.singleClick" ∨ name = "user.sorting.by" ∨
       name = "user.sorting.asc" ∨ name = "user.commands" ∨ name = "user.hideDotfiles" ∨
       name = "user.perm.admin" ∨ name = "user.perm.execute" ∨ name = "user.perm.create" ∨
       name = "user.perm.rename" ∨ name = "user.perm.modify" ∨ name = "user.perm.delete" ∨
       name = "user.perm.share" ∨ name = "user.perm.download")) ∧
    validSandstormFields.length = 17 ∧
    validSandstormFields.Nodup ∧
    (∀ hf2 : sandstormFields, hf2.IsValid name = hf.IsValid name) := by
  refine ⟨?_, rfl, by decide, fun _ => rfl⟩
  simp [sandstormFields.IsValid, validSandstormFields, isValidLoop]

/-- C13 at concrete inputs: a recognized key is valid whether or not the map
holds it, and a key that differs from a recognized one in letter case only is
not valid even when the map holds it. -/
theorem IsValid_spec_witness :
    (fieldsOf []).IsValid "user.perm.download" = true ∧
    (fieldsOf [("user.Scope", "/")]).IsValid "user.Scope" = false ∧
    (fieldsOf [("user.Scope", "/")]).IsValid "sandstorm.action" = true := by
  refine ⟨?_, by decide, ?_⟩
  · exact (IsValid_spec (fieldsOf []) "user.perm.download").1.2 (by simp)
  · exact (IsValid_spec (fieldsOf [("user.Scope", "/")]) "sandstorm.action").1.2 (by simp)

/-- C14: `GetUser d` keeps the ID, username and password of `d`, and takes
scope, locale, view mode, single-click, sorting (by, asc), commands and
hide-dotfiles from the typed accessor of the respective trusted field with the
value in `d` as default. -/
theorem GetUser_frame {σ : Type} (a : SandstormAuth σ) (d : User) :
    (a.GetUser d).ID = d.ID ∧
    (a.GetUser d).Username = d.Username ∧
    (a.GetUser d).Password = d.Password ∧
    (a.GetUser d).Scope = a.Fields.GetString "user.scope" d.Scope ∧
    (a.GetUser d).Locale = a.Fields.GetString "user.locale" d.Locale ∧
    (a.GetUser d).ViewMode = a.Fields.GetString "user.viewMode" d.ViewMode ∧
    (a.GetUser d).SingleClick = a.Fields.GetBoolean "user.singleClick" d.SingleClick ∧
    (a.GetUser d).Sorting.By = a.Fields.GetString "user.sorting.by" d.Sorting.By ∧
    (a.GetUser d).Sorting.Asc = a.Fields.GetBoolean "user.sorting.asc" d.Sorting.Asc ∧
    (a.GetUser d).Commands = a.Fields.GetArray "user.commands" d.Commands ∧
    (a.GetUser d).HideDotfiles = a.Fields.GetBoolean "user.hideDotfiles" d.HideDotfiles :=
  ⟨rfl, rfl, rfl, rfl, rfl, rfl, rfl, rfl, rfl, rfl, rfl⟩

/-- C14 at a concrete input: the stored "alice" merged under the promoting
fields keeps ID 7, username and password, takes the trusted scope "/data", and
keeps her own locale and commands, for which no field is trusted. -/
theorem GetUser_frame_witness :
    ((freshAuth promoteFields).GetUser aliceStored).ID = 7 ∧
    ((freshAuth promoteFields).GetUser aliceStored).Username = "alice" ∧
    ((freshAuth promoteFields).GetUser aliceStored).Password = "empty" ∧
    ((freshAuth promoteFields).GetUser aliceStored).Scope = "/data" ∧
    ((freshAuth promoteFields).GetUser aliceStored).Locale = aliceStored.Locale ∧
    ((freshAuth promoteFields).GetUser aliceStored).Commands = aliceStored.Commands := by
  have h := GetUser_frame (freshAuth promoteFields) aliceStored
  exact ⟨h.1, h.2.1, h.2.2.1, h.2.2.2.1.trans (by decide), h.2.2.2.2.1.trans (by decide),
    h.2.2.2.2.2.2.2.2.2.1.trans (by decide)⟩

/-! ## Properties of the split used by `GetArray` -/

/-- The split is a first piece followed by the pieces that each came after one
separator; gluing them back with the separator gives the input. -/
theorem splitChars_glue (sep : Char) (cs : List Char) :
    ∃ w ws, splitChars sep cs = w :: ws ∧
      w ++ (ws.map (fun x => sep :: x)).flatten = cs := by
  induction cs with
  | nil => exact ⟨[], [], rfl, rfl⟩
  | cons c cs ih =>
    obtain ⟨w, ws, hsp, hglue⟩ := ih
    by_cases hc : c = sep
    · refine ⟨[], w :: ws, ?_, ?_⟩
      · simp [splitChars, hc, hsp]
      · simp [hc, hglue]
    · refine ⟨c :: w, ws, ?_, ?_⟩
      · simp [splitChars, hc, hsp]
      · simp [hglue]

/-- No piece of the split contains the separator. -/
theorem splitChars_no_sep (sep : Char) (cs : List Char) :
    ∀ w ∈ splitChars sep cs, sep ∉ w := by
  induction cs with
  | nil => simp [splitChars]
  | cons c cs ih =>
    obtain ⟨w, ws, hsp, -⟩ := splitChars_glue sep cs
    rw [hsp] at ih
    by_cases hc : c = sep
    · intro x hx
      simp [splitChars, hc, hsp] at hx
      rcases hx with hx | hx | hx
      · simp [hx]
      · exact ih x (by simp [hx])
      · exact ih x (by simp [hx])
    · intro x hx
      simp [splitChars, hc, hsp] at hx
      rcases hx with hx | hx
      · subst hx
        have := ih w (by simp)
        simp [this, Ne.symm hc]
      · exact ih x (by simp [hx])

/-- The split has one piece more than the input has separators. -/
theorem splitChars_length (sep : Char) (cs : List Char) :
    (splitChars sep cs).length = cs.count sep + 1 := by
  induction cs with
  | nil => simp [splitChars]
  | cons c cs ih =>
    obtain ⟨w, ws, hsp, -⟩ := splitChars_glue sep cs
    rw [hsp] at ih
    by_cases hc : c = sep
    · simp [splitChars, hc, hsp]
      simpa using ih
    · simp [splitChars, hc, hsp, List.count_cons]
      simpa using ih

/-- The characters produced by the accumulating loop of `String.intercalate`. -/
theorem intercalate_go_data (acc s : String) (l : List String) :
    (String.intercalate.go acc s l).data =
      acc.data ++ (l.map (fun x => s.data ++ x.data)).flatten := by
  induction l generalizing acc with
  | nil => simp [String.intercalate.go]
  | cons x l ih =>
    simp [String.intercalate.go, ih, String.data_append]

/-- Joining the pieces of `SplitSpace v` with a single space gives `v` back. -/
theorem SplitSpace_join (v : String) : String.intercalate " " (SplitSpace v) = v := by
  obtain ⟨w, ws, hsp, hglue⟩ := splitChars_glue ' ' v.data
  apply String.ext
  simp only [SplitSpace, hsp, List.map_cons, String.intercalate, intercalate_go_data]
  rw [← hglue]
  simp [List.map_map, Function.comp_def]

/-- C11: for a present key whose value `v` is not blank after trimming white
space, `GetArray k dv` is the split of the untrimmed `v` at every single space:
joining the result with " " gives `v` back, no element contains a space, and
there is one element more than `v` has spaces. For a present key whose value is
blank after trimming, and for an absent key, `GetArray k dv` is `dv`. -/
theorem GetArray_spec (hf : sandstormFields) (k : String) (dv : List String) :
    (∀ v, hf.Values k = some v → TrimSpace v ≠ "" →
      hf.GetArray k dv = SplitSpace v ∧
      String.intercalate " " (hf.GetArray k dv) = v ∧
      (∀ e ∈ hf.GetArray k dv, ' ' ∉ e.data) ∧
      (hf.GetArray k dv).length = v.data.count ' ' + 1) ∧
    (∀ v, hf.Values k = some v → TrimSpace v = "" → hf.GetArray k dv = dv) ∧
    (hf.Values k = none → hf.GetArray k dv = dv) := by
  refine ⟨?_, ?_, ?_⟩
  · intro v hv hne
    have h : hf.GetArray k dv = SplitSpace v := by
      simp [sandstormFields.GetArray, hv, hne]
    rw [h]
    refine ⟨rfl, SplitSpace_join v, ?_, ?_⟩
    · intro e he
      simp only [SplitSpace, List.mem_map] at he
      obtain ⟨w, hw, rfl⟩ := he
      exact splitChars_no_sep ' ' v.data w hw
    · simp [SplitSpace, splitChars_length]
  · intro v hv hb
    simp [sandstormFields.GetArray, hv, hb]
  · intro hv
    simp [sandstormFields.GetArray, hv]

/-- C11 at the concrete inputs of the specification and some more: the value
"  " with default ["a"] gives ["a"], the value "x y" gives ["x", "y"]; a tab
alone is blank; leading, trailing and doubled spaces give empty elements; an
absent key gives the default. -/
theorem GetArray_spec_witness :
    (fieldsOf [("user.commands", "  ")]).GetArray "user.commands" ["a"] = ["a"] ∧
    (fieldsOf [("user.commands", "x y")]).GetArray "user.commands" ["a"] = ["x", "y"] ∧
    (fieldsOf [("user.commands", "\t")]).GetArray "user.commands" ["a"] = ["a"] ∧
    (fieldsOf [("user.commands", " x")]).GetArray "user.commands" ["a"] = ["", "x"] ∧
    (fieldsOf [("user.commands", "x ")]).GetArray "user.commands" ["a"] = ["x", ""] ∧
    (fieldsOf [("user.commands", "x  y")]).GetArray "user.commands" ["a"] = ["x", "", "y"] ∧
    (fieldsOf [("user.scope", "/")]).GetArray "user.commands" ["a"] = ["a"] := by
  refine ⟨?_, ?_, ?_, ?_, ?_, ?_, ?_⟩
  · exact (GetArray_spec (fieldsOf [("user.commands", "  ")]) "user.commands" ["a"]).2.1
      "  " (by decide) (by decide)
  · exact ((GetArray_spec (fieldsOf [("user.commands", "x y")]) "user.commands" ["a"]).1
      "x y" (by decide) (by decide)).1.trans (by decide)
  · exact (GetArray_spec (fieldsOf [("user.commands", "\t")]) "user.commands" ["a"]).2.1
      "\t" (by decide) (by decide)
  · exact ((GetArray_spec (fieldsOf [("user.commands", " x")]) "user.commands" ["a"]).1
      " x" (by decide) (by decide)).1.trans (by decide)
  · exact ((GetArray_spec (fieldsOf [("user.commands", "x ")]) "user.commands" ["a"]).1
      "x " (by decide) (by decide)).1.trans (by decide)
  · exact ((GetArray_spec (fieldsOf [("user.commands", "x  y")]) "user.commands" ["a"]).1
      "x  y" (by decide) (by decide)).1.trans (by decide)
  · exact (GetArray_spec (fieldsOf [("user.scope", "/")]) "user.commands" ["a"]).2.2
      (by decide)

/-! ## Further properties of `SaveUser` and `Auth` -/

/-- C15 (evaluation of the code): "bob" is stored as admin without any other
permission and no trusted field is set. `Auth` succeeds and returns that
record as it is: Admin is true while Execute, Create, Rename, Modify, Delete,
Share and Download are false. `GetUser` of the stored record would have every
flag true. -/
theorem Auth_existing_admin_partial :
    ((freshAuth emptyFields).Auth (requestFor "bob") memStore {} {} [bobStored]).err = none ∧
    ((freshAuth emptyFields).Auth (requestFor "bob") memStore {} {} [bobStored]).user
      = some bobStored ∧
    bobStored.Perm =
      { Admin := true, Execute := false, Create := false, Rename := false, Modify := false,
        Delete := false, Share := false, Download := false } ∧
    ((freshAuth emptyFields).GetUser bobStored).Perm =
      { Admin := true, Execute := true, Create := true, Rename := true, Modify := true,
        Delete := true, Share := true, Download := true } := by
  refine ⟨by decide, by decide, by decide, by decide⟩

/-- C16: when the lookup for the resolved identity returns a record and no
error, `Auth` returns a user and no error, whatever the trusted-fields map
`hf` is. -/
theorem Auth_existing_succeeds {σ : Type} (a : SandstormAuth σ) (hf : sandstormFields)
    (r : Request) (usr : Store σ) (stg : Settings) (srv : Server) (s : σ) (u : User)
    (h : usr.Get s srv.Root
      (({ a with Fields := hf }).Auth r usr stg srv s).self.Cred.Username = (some u, none)) :
    (({ a with Fields := hf }).Auth r usr stg srv s).err = none ∧
    (({ a with Fields := hf }).Auth r usr stg srv s).user.isSome = true := by
  obtain ⟨herr, -, -, huser⟩ := Auth_eq_SaveUser { a with Fields := hf } r usr stg srv s
  obtain ⟨hU, -, hS, -, -⟩ := Auth_self_fields { a with Fields := hf } r usr stg srv s
  have hsv := SaveUser_existing (({ a with Fields := hf }).Auth r usr stg srv s).self s u
    (by rw [hU, hS, h]) (by rw [hU, hS, h]; exact Or.inl rfl)
  rw [herr, huser, hsv]
  exact ⟨rfl, rfl⟩

/-- C16 at a concrete input: "alice" is stored and the trusted-fields map is
empty; `Auth` returns a user and no error. -/
theorem Auth_existing_succeeds_witness :
    memStore.Get [aliceStored] "/srv" "alice" = (some aliceStored, none) ∧
    (∀ k, emptyFields.Values k = none) ∧
    (({ freshAuth adminFields with Fields := emptyFields }).Auth (requestFor "alice")
      memStore {} ⟨"/srv"⟩ [aliceStored]).err = none ∧
    (({ freshAuth adminFields with Fields := emptyFields }).Auth (requestFor "alice")
      memStore {} ⟨"/srv"⟩ [aliceStored]).user.isSome = true := by
  have h := Auth_existing_succeeds (freshAuth adminFields) emptyFields (requestFor "alice")
    memStore {} ⟨"/srv"⟩ [aliceStored] aliceStored (by decide)
  exact ⟨by decide, fun _ => rfl, h.1, h.2⟩

/-- C20: when the lookup returns no fatal error (no error at all, or
`ErrNotExist`), what `SaveUser` does depends only on whether a record came
back. Without a record it provisions `GetUser b`, with `b` the baseline built
from the defaults, and calls `Save` once with it; the result is that record, or
the error of `Save`. With a record it returns that record as it is, with no
error, and calls `Save` not at all. -/
theorem SaveUser_choice {σ : Type} (a : SandstormAuth σ) (s : σ) (b : User)
    (hb : b =
      { Username := a.Cred.Username
        Password := "empty"
        Scope := a.Settings.Defaults.Scope
        Locale := a.Settings.Defaults.Locale
        ViewMode := a.Settings.Defaults.ViewMode
        SingleClick := a.Settings.Defaults.SingleClick
        Sorting := a.Settings.Defaults.Sorting
        Perm := a.Settings.Defaults.Perm
        Commands := a.Settings.Defaults.Commands
        HideDotfiles := a.Settings.Defaults.HideDotfiles })
    (he : (a.Users.Get s a.Server.Root a.Cred.Username).2 = none ∨
      (a.Users.Get s a.Server.Root a.Cred.Username).2 = some Error.ErrNotExist) :
    ((a.Users.Get s a.Server.Root a.Cred.Username).1 = none →
      (a.SaveUser s).calls =
        [StoreCall.get a.Server.Root a.Cred.Username, StoreCall.save (a.GetUser b)] ∧
      (a.SaveUser s).store = (a.Users.Save s (a.GetUser b)).1 ∧
      (a.SaveUser s).err = (a.Users.Save s (a.GetUser b)).2 ∧
      ((a.Users.Save s (a.GetUser b)).2 = none →
        (a.SaveUser s).user = some (a.GetUser b)) ∧
      (∀ e, (a.Users.Save s (a.GetUser b)).2 = some e → (a.SaveUser s).user = none)) ∧
    (∀ u, (a.Users.Get s a.Server.Root a.Cred.Username).1 = some u →
      (a.SaveUser s).user = some u ∧
      (a.SaveUser s).err = none ∧
      (a.SaveUser s).calls = [StoreCall.get a.Server.Root a.Cred.Username] ∧
      (a.SaveUser s).store = s) := by
  have hbase : a.baseline = b := by
    rw [hb]
    rfl
  refine ⟨fun hu => ?_, fun u hu => ?_⟩
  · have hsv := SaveUser_provision a s hu he
    rw [hbase] at hsv
    rw [hsv]
    refine ⟨rfl, rfl, rfl, ?_, ?_⟩
    · intro hs
      simp [hs]
    · intro e hs
      simp [hs]
  · rw [SaveUser_existing a s u hu he]
    exact ⟨rfl, rfl, rfl, rfl⟩

/-- C20 at concrete inputs: a lookup that returns neither a record nor an
error leads to one `Save` of the provisioned record; a lookup that returns the
record of "alice" together with `ErrNotExist` returns that record and saves
nothing. -/
theorem SaveUser_choice_witness :
    ({ freshAuth adminFields with
        Users := fixedStore (none, none) none
        Settings := rootScopeSettings
        Server := ⟨"/srv"⟩
        Cred := ⟨"alice"⟩ }.SaveUser []).calls =
      [StoreCall.get "/srv" "alice", StoreCall.save aliceProvisioned] ∧
    ({ freshAuth adminFields with
        Users := fixedStore (none, none) none
        Settings := rootScopeSettings
        Server := ⟨"/srv"⟩
        Cred := ⟨"alice"⟩ }.SaveUser []).user = some aliceProvisioned ∧
    ({ freshAuth adminFields with
        Users := fixedStore (some aliceStored, some Error.ErrNotExist) none
        Server := ⟨"/srv"⟩
        Cred := ⟨"alice"⟩ }.SaveUser [aliceStored]).user = some aliceStored ∧
    ({ freshAuth adminFields with
        Users := fixedStore (some aliceStored, some Error.ErrNotExist) none
        Server := ⟨"/srv"⟩
        Cred := ⟨"alice"⟩ }.SaveUser [aliceStored]).calls = [StoreCall.get "/srv" "alice"] := by
  have h1 := (SaveUser_choice
    { freshAuth adminFields with
        Users := fixedStore (none, none) none
        Settings := rootScopeSettings
        Server := ⟨"/srv"⟩
        Cred := ⟨"alice"⟩ } []
    { Username := "alice", Password := "empty", Scope := "/" } (by decide)
    (Or.inl (by decide))).1 (by decide)
  have h2 := (SaveUser_choice
    { freshAuth adminFields with
        Users := fixedStore (some aliceStored, some Error.ErrNotExist) none
        Server := ⟨"/srv"⟩
        Cred := ⟨"alice"⟩ } [aliceStored]
    { Username := "alice", Password := "empty" } (by decide)
    (Or.inr (by decide))).2 aliceStored (by decide)
  exact ⟨h1.1.trans (by decide), (h1.2.2.2.1 (by decide)).trans (by decide), h2.1, h2.2.2.1⟩

/-! ## Further properties of `GetUser` -/

/-- Reading a boolean field against its own result changes nothing. -/
theorem GetBoolean_idem (hf : sandstormFields) (k : String) (dv : Bool) :
    hf.GetBoolean k (hf.GetBoolean k dv) = hf.GetBoolean k dv := by
  unfold sandstormFields.GetBoolean
  cases hf.Values k <;> rfl

/-- Reading a permission field against an already merged flag changes nothing. -/
theorem GetBoolean_or_idem (hf : sandstormFields) (k : String) (x dv : Bool) :
    (x || hf.GetBoolean k (x || hf.GetBoolean k dv)) = (x || hf.GetBoolean k dv) := by
  unfold sandstormFields.GetBoolean
  cases hf.Values k <;> cases x <;> rfl

/-- Reading a string field against its own result changes nothing. -/
theorem GetString_idem (hf : sandstormFields) (k dv : String) :
    hf.GetString k (hf.GetString k dv) = hf.GetString k dv := by
  unfold sandstormFields.GetString
  cases hf.Values k <;> rfl

/-- Reading a list field against its own result changes nothing. -/
theorem GetArray_idem (hf : sandstormFields) (k : String) (dv : List String) :
    hf.GetArray k (hf.GetArray k dv) = hf.GetArray k dv := by
  unfold sandstormFields.GetArray
  cases hf.Values k with
  | none => rfl
  | some v =>
    by_cases hb : TrimSpace v = "" <;> simp [hb]

/-- C17: unknown keys are inert for the merge. Two authenticators whose field
maps agree on every key for which `IsValid` is true build the same record from
the same baseline; setting, changing or removing a key for which `IsValid` is
false does not change the record; and each of the sixteen keys that `GetUser`
looks up is valid. -/
theorem GetUser_unknown_keys_inert {σ τ : Type} (a : SandstormAuth σ) (b : SandstormAuth τ)
    (d : User) :
    ((∀ k, a.Fields.IsValid k = true → a.Fields.Values k = b.Fields.Values k) →
      a.GetUser d = b.GetUser d) ∧
    (∀ (k : String) (ov : Option String), a.Fields.IsValid k = false →
      ({ a with Fields := ⟨Function.update a.Fields.Values k ov⟩ }).GetUser d = a.GetUser d) ∧
    (∀ k ∈ ["user.perm.admin", "user.perm.execute", "user.perm.create", "user.perm.rename",
        "user.perm.modify", "user.perm.delete", "user.perm.share", "user.perm.download",
        "user.scope", "user.locale", "user.viewMode", "user.singleClick",
        "user.sorting.asc", "user.sorting.by", "user.commands", "user.hideDotfiles"],
      a.Fields.IsValid k = true) := by
  have key : ∀ {ρ : Type} (c : SandstormAuth ρ),
      (∀ k, a.Fields.IsValid k = true → a.Fields.Values k = c.Fields.Values k) →
      a.GetUser d = c.GetUser d := by
    intro ρ c h
    have h1 := h "user.perm.admin" rfl
    have h2 := h "user.perm.execute" rfl
    have h3 := h "user.perm.create" rfl
    have h4 := h "user.perm.rename" rfl
    have h5 := h "user.perm.modify" rfl
    have h6 := h "user.perm.delete" rfl
    have h7 := h "user.perm.share" rfl
    have h8 := h "user.perm.download" rfl
    have h9 := h "user.scope" rfl
    have h10 := h "user.locale" rfl
    have h11 := h "user.viewMode" rfl
    have h12 := h "user.singleClick" rfl
    have h13 := h "user.sorting.asc" rfl
    have h14 := h "user.sorting.by" rfl
    have h15 := h "user.commands" rfl
    have h16 := h "user.hideDotfiles" rfl
    simp only [SandstormAuth.GetUser, sandstormFields.GetBoolean, sandstormFields.GetString,
      sandstormFields.GetArray, h1, h2, h3, h4, h5, h6, h7, h8, h9, h10, h11, h12, h13,
      h14, h15, h16]
  refine ⟨key b, ?_, ?_⟩
  · intro k ov hk
    symm
    apply key
    intro k2 hk2
    have hne : k2 ≠ k := by
      intro h
      rw [h] at hk2
      have hk3 : a.Fields.IsValid k = true := hk2
      rw [hk] at hk3
      exact Bool.noConfusion hk3
    simp [Function.update, hne]
  · intro k hk
    simp only [List.mem_cons, List.mem_singleton, List.not_mem_nil, or_false] at hk
    rcases hk with h | h | h | h | h | h | h | h | h | h | h | h | h | h | h | h <;>
      (rw [h]; rfl)

/-- C17 at concrete inputs: with or without the unknown key `user.nickname`
the merged record is the same, and the keys `user.scope` and `user.commands`
that `GetUser` reads are valid. -/
theorem GetUser_unknown_keys_inert_witness :
    nicknameFields.IsValid "user.nickname" = false ∧
    nicknameFields.Values "user.nickname" = some "al" ∧
    (freshAuth nicknameFields).GetUser carolBaseline =
      (freshAuth emptyFields).GetUser carolBaseline ∧
    emptyFields.IsValid "user.scope" = true ∧
    emptyFields.IsValid "user.commands" = true := by
  have h := GetUser_unknown_keys_inert (freshAuth nicknameFields) (freshAuth emptyFields)
    carolBaseline
  refine ⟨by decide, by decide, h.1 ?_, by decide, by decide⟩
  intro k hk
  have hne : ¬ (k == "user.nickname") = true := by
    intro hkk
    have hkk2 : k = "user.nickname" := by simpa using hkk
    rw [hkk2] at hk
    revert hk
    decide
  simp [freshAuth, nicknameFields, emptyFields, fieldsOf, List.lookup, hne]

/-- C18: `GetUser` is idempotent for a fixed field map: merging an already
merged record gives the same record, on every field. -/
theorem GetUser_idempotent {σ : Type} (a : SandstormAuth σ) (d : User) :
    a.GetUser (a.GetUser d) = a.GetUser d := by
  simp only [SandstormAuth.GetUser, GetBoolean_idem, GetBoolean_or_idem, GetString_idem,
    GetArray_idem]

/-- C18 at a concrete input: the record merged from the stored "alice" under
the promoting fields is a fixed point of the merge. -/
theorem GetUser_idempotent_witness :
    (freshAuth promoteFields).GetUser ((freshAuth promoteFields).GetUser aliceStored) =
      (freshAuth promoteFields).GetUser aliceStored ∧
    ((freshAuth promoteFields).GetUser aliceStored).Scope = "/data" :=
  ⟨GetUser_idempotent (freshAuth promoteFields) aliceStored, by decide⟩

/-- C19: with an empty trusted-fields map, `GetUser d` agrees with `d` on ID,
username, password, scope, locale, view mode, single-click, sorting, commands
and hide-dotfiles; `LockPassword` is true whatever it was in `d`; Admin is as
in `d`; each other permission flag is the Admin flag of `d` OR the flag of `d`;
so the permissions are unchanged exactly when `d` is not admin or has every
flag set. -/
theorem GetUser_empty_fields {σ : Type} (a : SandstormAuth σ) (d : User)
    (h : ∀ k, a.Fields.Values k = none) :
    (a.GetUser d).ID = d.ID ∧ (a.GetUser d).Username = d.Username ∧
    (a.GetUser d).Password = d.Password ∧ (a.GetUser d).Scope = d.Scope ∧
    (a.GetUser d).Locale = d.Locale ∧ (a.GetUser d).ViewMode = d.ViewMode ∧
    (a.GetUser d).SingleClick = d.SingleClick ∧ (a.GetUser d).Sorting = d.Sorting ∧
    (a.GetUser d).Commands = d.Commands ∧ (a.GetUser d).HideDotfiles = d.HideDotfiles ∧
    (a.GetUser d).LockPassword = true ∧
    (a.GetUser d).Perm.Admin = d.Perm.Admin ∧
    (a.GetUser d).Perm.Execute = (d.Perm.Admin || d.Perm.Execute) ∧
    (a.GetUser d).Perm.Create = (d.Perm.Admin || d.Perm.Create) ∧
    (a.GetUser d).Perm.Rename = (d.Perm.Admin || d.Perm.Rename) ∧
    (a.GetUser d).Perm.Modify = (d.Perm.Admin || d.Perm.Modify) ∧
    (a.GetUser d).Perm.Delete = (d.Perm.Admin || d.Perm.Delete) ∧
    (a.GetUser d).Perm.Share = (d.Perm.Admin || d.Perm.Share) ∧
    (a.GetUser d).Perm.Download = (d.Perm.Admin || d.Perm.Download) ∧
    ((a.GetUser d).Perm = d.Perm ↔
      (d.Perm.Admin = false ∨
        (d.Perm.Execute = true ∧ d.Perm.Create = true ∧ d.Perm.Rename = true ∧
         d.Perm.Modify = true ∧ d.Perm.Delete = true ∧ d.Perm.Share = true ∧
         d.Perm.Download = true))) := by
  have hB : ∀ k dv, a.Fields.GetBoolean k dv = dv := by
    intro k dv
    simp [sandstormFields.GetBoolean, h k]
  have hS : ∀ k dv, a.Fields.GetString k dv = dv := by
    intro k dv
    simp [sandstormFields.GetString, h k]
  have hA : ∀ k dv, a.Fields.GetArray k dv = dv := by
    intro k dv
    simp [sandstormFields.GetArray, h k]
  have hG : a.GetUser d =
      { ID := d.ID
        Username := d.Username
        Password := d.Password
        Scope := d.Scope
        Locale := d.Locale
        ViewMode := d.ViewMode
        SingleClick := d.SingleClick
        Sorting := { Asc := d.Sorting.Asc, By := d.Sorting.By }
        Commands := d.Commands
        HideDotfiles := d.HideDotfiles
        Perm :=
          { Admin := d.Perm.Admin
            Execute := d.Perm.Admin || d.Perm.Execute
            Create := d.Perm.Admin || d.Perm.Create
            Rename := d.Perm.Admin || d.Perm.Rename
            Modify := d.Perm.Admin || d.Perm.Modify
            Delete := d.Perm.Admin || d.Perm.Delete
            Share := d.Perm.Admin || d.Perm.Share
            Download := d.Perm.Admin || d.Perm.Download }
        LockPassword := true } := by
    simp only [SandstormAuth.GetUser, hB, hS, hA]
  rw [hG]
  refine ⟨rfl, rfl, rfl, rfl, rfl, rfl, rfl, rfl, rfl, rfl, rfl, rfl, rfl, rfl, rfl, rfl, rfl,
    rfl, rfl, ?_⟩
  obtain ⟨id, un, pw, sc, lo, lp, vm, sg, ⟨p1, p2, p3, p4, p5, p6, p7, p8⟩, cm, so, hd⟩ := d
  simp only [Permissions.mk.injEq]
  cases p1 <;> simp

/-- C19 at a concrete input: the baseline of "carol" is admin with Create only
and not password-locked; under the empty map the merged record keeps her
preferences, is password-locked and has every permission flag. -/
theorem GetUser_empty_fields_witness :
    (∀ k, (freshAuth emptyFields).Fields.Values k = none) ∧
    carolBaseline.LockPassword = false ∧
    (freshAuth emptyFields).GetUser carolBaseline =
      { carolBaseline with
        LockPassword := true
        Perm :=
          { Admin := true, Execute := true, Create := true, Rename := true, Modify := true,
            Delete := true, Share := true, Download := true } } ∧
    ((freshAuth emptyFields).GetUser carolBaseline).Perm ≠ carolBaseline.Perm := by
  have h := GetUser_empty_fields (freshAuth emptyFields) carolBaseline (fun _ => rfl)
  refine ⟨fun _ => rfl, by decide, by decide, ?_⟩
  intro hp
  have h2 := h.2.2.2.2.2.2.2.2.2.2.2.2.2.2.2.2.2.2.2.1 hp
  revert h2
  decide

end auth
